import Mathlib

/-!
Verification of the S3Database document store (src/S3Database.js).

The development embeds the store shallowly: JSON documents are an inductive
type with an executable renderer and parser modelling JSON.stringify and
JSON.parse (restricted to integer numbers and the common string escapes), the
object-store client is an abstract collaborator over an arbitrary backend
state, and each method of the S3Database class is translated as a pure
function over that collaborator, preserving the try/catch structure of the
source. An honest in-memory backend instantiates the collaborator for the
functional properties; error-injecting clients instantiate it for the
error-handling properties.
-/

namespace S3DB

/-- A JSON document: null, booleans, numbers (modelled as integers), strings,
arrays and objects with ordered fields. -/
inductive Json where
  | null
  | bool (b : Bool)
  | num (n : Int)
  | str (s : String)
  | arr (elems : List Json)
  | obj (fields : List (String × Json))
deriving Repr

def digitChar (n : Nat) : Char := Char.ofNat (48 + n)

def natDigitsAux (n : Nat) (acc : List Char) : List Char :=
  if h : n = 0 then acc
  else natDigitsAux (n / 10) (digitChar (n % 10) :: acc)
decreasing_by exact Nat.div_lt_self (Nat.pos_of_ne_zero h) (by omega)

def natDigits (n : Nat) : List Char :=
  if n = 0 then ['0'] else natDigitsAux n []

def intChars (i : Int) : List Char :=
  if i < 0 then '-' :: natDigits i.natAbs else natDigits i.toNat

def escChar (c : Char) : List Char :=
  if c = '"' then ['\\', '"']
  else if c = '\\' then ['\\', '\\']
  else if c = '\n' then ['\\', 'n']
  else if c = '\t' then ['\\', 't']
  else if c = '\r' then ['\\', 'r']
  else [c]

def escape : List Char → List Char
  | [] => []
  | c :: cs => escChar c ++ escape cs

mutual
def renderChars : Json → List Char
  | .null => "null".data
  | .bool true => "true".data
  | .bool false => "false".data
  | .num i => intChars i
  | .str s => '"' :: (escape s.data ++ ['"'])
  | .arr [] => ['[', ']']
  | .arr (v :: vs) => '[' :: (renderChars v ++ renderItems vs ++ [']'])
  | .obj [] => ['\x7b', '\x7d']
  | .obj (f :: fs) => '\x7b' :: (renderField f ++ renderFields fs ++ ['\x7d'])

def renderItems : List Json → List Char
  | [] => []
  | v :: vs => ',' :: (renderChars v ++ renderItems vs)

def renderField : String × Json → List Char
  | (k, v) => '"' :: (escape k.data ++ ('"' :: ':' :: renderChars v))

def renderFields : List (String × Json) → List Char
  | [] => []
  | f :: fs => ',' :: (renderField f ++ renderFields fs)
end

def digitVal (c : Char) : Nat := c.toNat - 48

def takeDigits : List Char → List Char × List Char
  | [] => ([], [])
  | c :: cs =>
    if c.isDigit then
      let (ds, r) := takeDigits cs
      (c :: ds, r)
    else ([], c :: cs)

def digitsNum (ds : List Char) : Nat := ds.foldl (fun a c => a * 10 + digitVal c) 0

def parseNatChars (cs : List Char) : Option (Nat × List Char) :=
  match takeDigits cs with
  | ([], _) => none
  | (ds, r) => some (digitsNum ds, r)

def parseStrAux : List Char → List Char → Option (String × List Char)
  | [], _ => none
  | c :: rest, acc =>
    if c = '"' then some (String.mk acc.reverse, rest)
    else if c = '\\' then
      match rest with
      | [] => none
      | e :: rest2 =>
        if e = '"' then parseStrAux rest2 ('"' :: acc)
        else if e = '\\' then parseStrAux rest2 ('\\' :: acc)
        else if e = 'n' then parseStrAux rest2 ('\n' :: acc)
        else if e = 't' then parseStrAux rest2 ('\t' :: acc)
        else if e = 'r' then parseStrAux rest2 ('\r' :: acc)
        else none
    else parseStrAux rest (c :: acc)

mutual
def parseVal : Nat → List Char → Option (Json × List Char)
  | 0, _ => none
  | f + 1, cs =>
    match cs with
    | [] => none
    | c :: rest =>
      if c.isDigit then
        match parseNatChars (c :: rest) with
        | some (n, r) => some (.num (n : Int), r)
        | none => none
      else if c = '-' then
        match parseNatChars rest with
        | some (n, r) => some (.num (-(n : Int)), r)
        | none => none
      else if c = 'n' then
        match rest with
        | 'u' :: 'l' :: 'l' :: r => some (.null, r)
        | _ => none
      else if c = 't' then
        match rest with
        | 'r' :: 'u' :: 'e' :: r => some (.bool true, r)
        | _ => none
      else if c = 'f' then
        match rest with
        | 'a' :: 'l' :: 's' :: 'e' :: r => some (.bool false, r)
        | _ => none
      else if c = '"' then
        match parseStrAux rest [] with
        | some (s, r) => some (.str s, r)
        | none => none
      else if c = '[' then
        if rest.head? = some ']' then some (.arr [], rest.tail)
        else
          match parseVal f rest with
          | some (v, r) =>
            match parseItems f r with
            | some (vs, r2) => some (.arr (v :: vs), r2)
            | none => none
          | none => none
      else if c = '\x7b' then
        if rest.head? = some '\x7d' then some (.obj [], rest.tail)
        else
          match parseField f rest with
          | some (kv, r) =>
            match parseFields f r with
            | some (kvs, r2) => some (.obj (kv :: kvs), r2)
            | none => none
          | none => none
      else none

def parseItems : Nat → List Char → Option (List Json × List Char)
  | 0, _ => none
  | f + 1, cs =>
    match cs with
    | [] => none
    | c :: rest =>
      if c = ']' then some ([], rest)
      else if c = ',' then
        match parseVal f rest with
        | some (v, r) =>
          match parseItems f r with
          | some (vs, r2) => some (v :: vs, r2)
          | none => none
        | none => none
      else none

def parseField : Nat → List Char → Option ((String × Json) × List Char)
  | 0, _ => none
  | f + 1, cs =>
    match cs with
    | [] => none
    | c :: rest =>
      if c = '"' then
        match parseStrAux rest [] with
        | some (s, r) =>
          match r with
          | ':' :: r2 =>
            match parseVal f r2 with
            | some (v, r3) => some ((s, v), r3)
            | none => none
          | _ => none
        | none => none
      else none

def parseFields : Nat → List Char → Option (List (String × Json) × List Char)
  | 0, _ => none
  | f + 1, cs =>
    match cs with
    | [] => none
    | c :: rest =>
      if c = '\x7d' then some ([], rest)
      else if c = ',' then
        match parseField f rest with
        | some (kv, r) =>
          match parseFields f r with
          | some (kvs, r2) => some (kv :: kvs, r2)
          | none => none
        | none => none
      else none
end

def Json.render (v : Json) : String := String.mk (renderChars v)

def Json.parse (s : String) : Option Json :=
  match parseVal (s.length + 1) s.data with
  | some (v, []) => some v
  | _ => none

/-! Digit and number lemmas -/

theorem digitChar_isDigit (k : Nat) (h : k < 10) : (digitChar k).isDigit = true := by
  interval_cases k <;> decide

theorem digitVal_digitChar (k : Nat) (h : k < 10) : digitVal (digitChar k) = k := by
  interval_cases k <;> decide

theorem natDigitsAux_eq_append (n : Nat) :
    ∀ acc, natDigitsAux n acc = natDigitsAux n [] ++ acc := by
  induction n using Nat.strong_induction_on with
  | _ n ih =>
    intro acc
    by_cases h : n = 0
    · subst h; simp [natDigitsAux]
    · have hlt : n / 10 < n := Nat.div_lt_self (Nat.pos_of_ne_zero h) (by omega)
      conv_lhs => rw [natDigitsAux]
      conv_rhs => rw [natDigitsAux]
      rw [dif_neg h, dif_neg h,
        ih (n / 10) hlt [digitChar (n % 10)],
        ih (n / 10) hlt (digitChar (n % 10) :: acc)]
      simp

theorem natDigitsAux_all_digits (n : Nat) :
    ∀ c ∈ natDigitsAux n [], c.isDigit = true := by
  induction n using Nat.strong_induction_on with
  | _ n ih =>
    intro c hc
    by_cases h : n = 0
    · subst h; simp [natDigitsAux] at hc
    · rw [natDigitsAux, dif_neg h, natDigitsAux_eq_append] at hc
      rcases List.mem_append.mp hc with h1 | h1
      · exact ih (n / 10) (Nat.div_lt_self (Nat.pos_of_ne_zero h) (by omega)) c h1
      · simp at h1; subst h1; exact digitChar_isDigit _ (Nat.mod_lt _ (by omega))

theorem natDigits_all_digits (n : Nat) : ∀ c ∈ natDigits n, c.isDigit = true := by
  intro c hc
  unfold natDigits at hc
  by_cases h : n = 0
  · rw [if_pos h] at hc; simp at hc; subst hc; decide
  · rw [if_neg h] at hc; exact natDigitsAux_all_digits n c hc

theorem natDigits_ne_nil (n : Nat) : natDigits n ≠ [] := by
  unfold natDigits
  by_cases h : n = 0
  · rw [if_pos h]; simp
  · rw [if_neg h, natDigitsAux, dif_neg h, natDigitsAux_eq_append]; simp

theorem foldl_natDigitsAux (n : Nat) (hn : 0 < n) :
    ∀ a : Nat, (natDigitsAux n []).foldl (fun a c => a * 10 + digitVal c) a =
      a * 10 ^ (natDigitsAux n []).length + n := by
  induction n using Nat.strong_induction_on with
  | _ n ih =>
    intro a
    have h : n ≠ 0 := by omega
    have hstep : natDigitsAux n [] = natDigitsAux (n / 10) [] ++ [digitChar (n % 10)] := by
      conv_lhs => rw [natDigitsAux]
      rw [dif_neg h, natDigitsAux_eq_append]
    rw [hstep, List.foldl_append, List.length_append]
    by_cases h10 : n / 10 = 0
    · rw [h10]
      simp [natDigitsAux, digitVal_digitChar _ (Nat.mod_lt _ (by omega))]
      omega
    · rw [ih (n / 10) (Nat.div_lt_self (by omega) (by omega)) (by omega) a]
      simp only [List.foldl_cons, List.foldl_nil, List.length_cons, List.length_nil,
        digitVal_digitChar _ (Nat.mod_lt n (by omega))]
      have hmod : n / 10 * 10 + n % 10 = n := by omega
      rw [pow_succ, Nat.add_mul, Nat.add_assoc, hmod, Nat.mul_assoc]

theorem digitsNum_natDigits (n : Nat) : digitsNum (natDigits n) = n := by
  unfold digitsNum natDigits
  by_cases h : n = 0
  · rw [if_pos h]; subst h; decide
  · rw [if_neg h, foldl_natDigitsAux n (by omega) 0]; simp

/-- The continuation after a rendered value never begins with a digit. -/
def restOk : List Char → Prop
  | [] => True
  | c :: _ => c.isDigit = false

theorem takeDigits_append (ds : List Char) (hds : ∀ c ∈ ds, c.isDigit = true) :
    ∀ r, restOk r → takeDigits (ds ++ r) = (ds, r) := by
  induction ds with
  | nil =>
    intro r hr
    match r with
    | [] => rfl
    | c :: r' =>
      simp only [restOk] at hr
      rw [List.nil_append, takeDigits.eq_def]
      simp [hr]
  | cons c cs ih =>
    intro r hr
    rw [List.cons_append, takeDigits.eq_def]
    simp only [hds c (by simp), if_true]
    rw [ih (fun x hx => hds x (by simp [hx])) r hr]

theorem parseNatChars_natDigits (n : Nat) (r : List Char) (hr : restOk r) :
    parseNatChars (natDigits n ++ r) = some (n, r) := by
  unfold parseNatChars
  rw [takeDigits_append (natDigits n) (natDigits_all_digits n) r hr]
  have hne := natDigits_ne_nil n
  match h : natDigits n with
  | [] => exact absurd h hne
  | d :: ds =>
    simp only
    rw [← h, digitsNum_natDigits]

theorem parseStrAux_escape (cs : List Char) :
    ∀ acc rest, parseStrAux (escape cs ++ '"' :: rest) acc =
      some (String.mk (acc.reverse ++ cs), rest) := by
  induction cs with
  | nil =>
    intro acc rest
    rw [show escape [] = [] from rfl, List.nil_append, parseStrAux.eq_def]
    simp
  | cons c cs ih =>
    intro acc rest
    rw [show escape (c :: cs) = escChar c ++ escape cs from rfl]
    by_cases h1 : c = '"'
    · subst h1
      rw [show escChar '"' = ['\\', '"'] from by simp [escChar], List.append_assoc,
        List.cons_append, List.cons_append, List.nil_append, parseStrAux.eq_def]
      simp [ih]
    · by_cases h2 : c = '\\'
      · subst h2
        rw [show escChar '\\' = ['\\', '\\'] from by simp [escChar], List.append_assoc,
          List.cons_append, List.cons_append, List.nil_append, parseStrAux.eq_def]
        simp [ih]
      · by_cases h3 : c = '\n'
        · subst h3
          rw [show escChar '\n' = ['\\', 'n'] from by simp [escChar], List.append_assoc,
            List.cons_append, List.cons_append, List.nil_append, parseStrAux.eq_def]
          simp [ih]
        · by_cases h4 : c = '\t'
          · subst h4
            rw [show escChar '\t' = ['\\', 't'] from by simp [escChar], List.append_assoc,
              List.cons_append, List.cons_append, List.nil_append, parseStrAux.eq_def]
            simp [ih]
          · by_cases h5 : c = '\r'
            · subst h5
              rw [show escChar '\r' = ['\\', 'r'] from by simp [escChar], List.append_assoc,
                List.cons_append, List.cons_append, List.nil_append, parseStrAux.eq_def]
              simp [ih]
            · rw [show escChar c = [c] from by simp [escChar, h1, h2, h3, h4, h5],
                List.append_assoc, List.cons_append, List.nil_append, parseStrAux.eq_def]
              simp only []
              rw [if_neg h1, if_neg h2, ih]
              simp

/-! Fuel bounds for the parser -/

mutual
def sizeJ : Json → Nat
  | .null => 1
  | .bool _ => 1
  | .num _ => 1
  | .str _ => 1
  | .arr [] => 1
  | .arr (v :: vs) => 1 + sizeJ v + sizeItems vs
  | .obj [] => 1
  | .obj (kv :: fs) => 1 + sizeField kv + sizeFields fs

def sizeItems : List Json → Nat
  | [] => 1
  | v :: vs => 1 + sizeJ v + sizeItems vs

def sizeField : String × Json → Nat
  | (_, v) => 1 + sizeJ v

def sizeFields : List (String × Json) → Nat
  | [] => 1
  | kv :: fs => 1 + sizeField kv + sizeFields fs
end

/-- Every rendered value starts with a character that identifies its branch. -/
def goodStart (c : Char) : Prop :=
  c.isDigit = true ∨ c = '-' ∨ c = 'n' ∨ c = 't' ∨ c = 'f' ∨ c = '"' ∨ c = '[' ∨ c = '\x7b'

theorem goodStart_not_close (c : Char) (h : goodStart c) :
    c ≠ ']' ∧ c ≠ '\x7d' ∧ c ≠ ',' := by
  rcases h with h | h | h | h | h | h | h | h
  · refine ⟨?_, ?_, ?_⟩ <;> · intro he; subst he; simp at h
  all_goals subst h; refine ⟨by decide, by decide, by decide⟩

theorem natDigits_head_digit (n : Nat) :
    ∃ c cs, natDigits n = c :: cs ∧ c.isDigit = true := by
  have hne := natDigits_ne_nil n
  match h : natDigits n with
  | [] => exact absurd h hne
  | c :: cs =>
    refine ⟨c, cs, rfl, ?_⟩
    exact natDigits_all_digits n c (h ▸ List.mem_cons_self c cs)

theorem renderChars_head (v : Json) : ∃ c cs, renderChars v = c :: cs ∧ goodStart c := by
  cases v with
  | null => exact ⟨'n', ['u', 'l', 'l'], rfl, by simp [goodStart]⟩
  | bool b =>
    cases b
    · exact ⟨'f', ['a', 'l', 's', 'e'], rfl, by simp [goodStart]⟩
    · exact ⟨'t', ['r', 'u', 'e'], rfl, by simp [goodStart]⟩
  | num i =>
    rw [show renderChars (.num i) = intChars i from by simp [renderChars]]
    unfold intChars
    by_cases h : i < 0
    · rw [if_pos h]; exact ⟨'-', natDigits i.natAbs, rfl, by simp [goodStart]⟩
    · rw [if_neg h]
      obtain ⟨c, cs, hc, hd⟩ := natDigits_head_digit i.toNat
      exact ⟨c, cs, hc, Or.inl hd⟩
  | str s => exact ⟨'"', escape s.data ++ ['"'], by simp [renderChars], by simp [goodStart]⟩
  | arr vs =>
    cases vs with
    | nil => exact ⟨'[', [']'], by simp [renderChars], by simp [goodStart]⟩
    | cons v vs =>
      exact ⟨'[', renderChars v ++ renderItems vs ++ [']'], by simp [renderChars],
        by simp [goodStart]⟩
  | obj fs =>
    cases fs with
    | nil => exact ⟨'\x7b', ['\x7d'], by simp [renderChars], by simp [goodStart]⟩
    | cons kv fs =>
      exact ⟨'\x7b', renderField kv ++ renderFields fs ++ ['\x7d'], by simp [renderChars],
        by simp [goodStart]⟩

theorem restOk_items (vs : List Json) (rest : List Char) :
    restOk (renderItems vs ++ ']' :: rest) := by
  cases vs with
  | nil =>
    rw [show renderItems [] = [] from by simp [renderItems], List.nil_append]
    exact show (']' : Char).isDigit = false by decide
  | cons v vs =>
    rw [show renderItems (v :: vs) = ',' :: (renderChars v ++ renderItems vs)
      from by simp [renderItems], List.cons_append]
    exact show (',' : Char).isDigit = false by decide

theorem restOk_fields (fs : List (String × Json)) (rest : List Char) :
    restOk (renderFields fs ++ '\x7d' :: rest) := by
  cases fs with
  | nil =>
    rw [show renderFields [] = [] from by simp [renderFields], List.nil_append]
    exact show ('\x7d' : Char).isDigit = false by decide
  | cons kv fs =>
    rw [show renderFields (kv :: fs) = ',' :: (renderField kv ++ renderFields fs)
      from by simp [renderFields], List.cons_append]
    exact show (',' : Char).isDigit = false by decide

theorem mk_data (s : String) : String.mk s.data = s := rfl

theorem parseVal_succ_cons (f : Nat) (c : Char) (rest : List Char) :
    parseVal (f + 1) (c :: rest) =
      (if c.isDigit then
        match parseNatChars (c :: rest) with
        | some (n, r) => some (.num (n : Int), r)
        | none => none
      else if c = '-' then
        match parseNatChars rest with
        | some (n, r) => some (.num (-(n : Int)), r)
        | none => none
      else if c = 'n' then
        match rest with
        | 'u' :: 'l' :: 'l' :: r => some (.null, r)
        | _ => none
      else if c = 't' then
        match rest with
        | 'r' :: 'u' :: 'e' :: r => some (.bool true, r)
        | _ => none
      else if c = 'f' then
        match rest with
        | 'a' :: 'l' :: 's' :: 'e' :: r => some (.bool false, r)
        | _ => none
      else if c = '"' then
        match parseStrAux rest [] with
        | some (s, r) => some (.str s, r)
        | none => none
      else if c = '[' then
        if rest.head? = some ']' then some (.arr [], rest.tail)
        else
          match parseVal f rest with
          | some (v, r) =>
            match parseItems f r with
            | some (vs, r2) => some (.arr (v :: vs), r2)
            | none => none
          | none => none
      else if c = '\x7b' then
        if rest.head? = some '\x7d' then some (.obj [], rest.tail)
        else
          match parseField f rest with
          | some (kv, r) =>
            match parseFields f r with
            | some (kvs, r2) => some (.obj (kv :: kvs), r2)
            | none => none
          | none => none
      else none) := rfl

theorem parseItems_succ_cons (f : Nat) (c : Char) (rest : List Char) :
    parseItems (f + 1) (c :: rest) =
      (if c = ']' then some ([], rest)
      else if c = ',' then
        match parseVal f rest with
        | some (v, r) =>
          match parseItems f r with
          | some (vs, r2) => some (v :: vs, r2)
          | none => none
        | none => none
      else none) := rfl

theorem parseField_succ_cons (f : Nat) (c : Char) (rest : List Char) :
    parseField (f + 1) (c :: rest) =
      (if c = '"' then
        match parseStrAux rest [] with
        | some (s, r) =>
          match r with
          | ':' :: r2 =>
            match parseVal f r2 with
            | some (v, r3) => some ((s, v), r3)
            | none => none
          | _ => none
        | none => none
      else none) := rfl

theorem parseFields_succ_cons (f : Nat) (c : Char) (rest : List Char) :
    parseFields (f + 1) (c :: rest) =
      (if c = '\x7d' then some ([], rest)
      else if c = ',' then
        match parseField f rest with
        | some (kv, r) =>
          match parseFields f r with
          | some (kvs, r2) => some (kv :: kvs, r2)
          | none => none
        | none => none
      else none) := rfl

mutual
theorem parseVal_render (v : Json) : ∀ (f : Nat), sizeJ v ≤ f → ∀ (rest : List Char),
    restOk rest → parseVal f (renderChars v ++ rest) = some (v, rest) := by
  cases v with
  | null =>
    intro f hf rest hrest
    rw [show sizeJ .null = 1 from by simp [sizeJ]] at hf
    cases f with
    | zero => omega
    | succ f =>
      rw [show renderChars .null = ['n', 'u', 'l', 'l'] from rfl,
        List.cons_append, parseVal_succ_cons]
      simp
  | bool b =>
    intro f hf rest hrest
    rw [show sizeJ (.bool b) = 1 from by simp [sizeJ]] at hf
    cases f with
    | zero => omega
    | succ f =>
      cases b
      · rw [show renderChars (.bool false) = ['f', 'a', 'l', 's', 'e'] from rfl,
          List.cons_append, parseVal_succ_cons]
        simp
      · rw [show renderChars (.bool true) = ['t', 'r', 'u', 'e'] from rfl,
          List.cons_append, parseVal_succ_cons]
        simp
  | num i =>
    intro f hf rest hrest
    rw [show sizeJ (.num i) = 1 from by simp [sizeJ]] at hf
    cases f with
    | zero => omega
    | succ f =>
      rw [show renderChars (.num i) = intChars i from by simp [renderChars]]
      unfold intChars
      by_cases hneg : i < 0
      · rw [if_pos hneg, List.cons_append, parseVal_succ_cons]
        have hpn := parseNatChars_natDigits i.natAbs rest hrest
        simp [hpn]
        rw [abs_of_neg hneg, neg_neg]
      · rw [if_neg hneg]
        obtain ⟨c, cs, hc, hd⟩ := natDigits_head_digit i.toNat
        have hpn := parseNatChars_natDigits i.toNat rest hrest
        rw [hc, List.cons_append] at hpn
        rw [hc, List.cons_append, parseVal_succ_cons]
        have hni : ((i.toNat : Nat) : Int) = i := by omega
        simp [hd, hpn, hni]
  | str s =>
    intro f hf rest hrest
    rw [show sizeJ (.str s) = 1 from by simp [sizeJ]] at hf
    cases f with
    | zero => omega
    | succ f =>
      rw [show renderChars (.str s) = '"' :: (escape s.data ++ ['"']) from by simp [renderChars],
        List.cons_append, parseVal_succ_cons]
      have hL : (escape s.data ++ ['"']) ++ rest = escape s.data ++ '"' :: rest := by simp
      rw [hL, show parseStrAux (escape s.data ++ '"' :: rest) [] =
        some (String.mk ([].reverse ++ s.data), rest) from parseStrAux_escape s.data [] rest]
      simp [mk_data]
  | arr vs =>
    cases vs with
    | nil =>
      intro f hf rest hrest
      rw [show sizeJ (.arr []) = 1 from by simp [sizeJ]] at hf
      cases f with
      | zero => omega
      | succ f =>
        rw [show renderChars (.arr []) = ['[', ']'] from by simp [renderChars],
          List.cons_append, parseVal_succ_cons]
        simp
    | cons v vs =>
      intro f hf rest hrest
      rw [show sizeJ (.arr (v :: vs)) = 1 + sizeJ v + sizeItems vs from by simp [sizeJ]] at hf
      cases f with
      | zero => omega
      | succ f =>
        rw [show renderChars (.arr (v :: vs)) = '[' :: (renderChars v ++ renderItems vs ++ [']'])
          from by simp [renderChars], List.cons_append]
        have hL : (renderChars v ++ renderItems vs ++ [']']) ++ rest
            = renderChars v ++ (renderItems vs ++ ']' :: rest) := by simp
        rw [hL]
        have hIH := parseVal_render v f (by omega) (renderItems vs ++ ']' :: rest)
          (restOk_items vs rest)
        have hIH2 := parseItems_render vs f (by omega) rest hrest
        obtain ⟨c, cs, hc, hgood⟩ := renderChars_head v
        obtain ⟨hc1, hc2, hc3⟩ := goodStart_not_close c hgood
        rw [hc, List.cons_append] at hIH ⊢
        rw [parseVal_succ_cons]
        simp [hc1, hIH, hIH2]
  | obj fs =>
    cases fs with
    | nil =>
      intro f hf rest hrest
      rw [show sizeJ (.obj []) = 1 from by simp [sizeJ]] at hf
      cases f with
      | zero => omega
      | succ f =>
        rw [show renderChars (.obj []) = ['\x7b', '\x7d'] from by simp [renderChars],
          List.cons_append, parseVal_succ_cons]
        simp
    | cons kv fs =>
      intro f hf rest hrest
      rw [show sizeJ (.obj (kv :: fs)) = 1 + sizeField kv + sizeFields fs
        from by simp [sizeJ]] at hf
      cases f with
      | zero => omega
      | succ f =>
        rw [show renderChars (.obj (kv :: fs))
            = '\x7b' :: (renderField kv ++ renderFields fs ++ ['\x7d'])
          from by simp [renderChars], List.cons_append]
        have hL : (renderField kv ++ renderFields fs ++ ['\x7d']) ++ rest
            = renderField kv ++ (renderFields fs ++ '\x7d' :: rest) := by simp
        rw [hL]
        have hIH := parseField_render kv f (by omega) (renderFields fs ++ '\x7d' :: rest)
          (restOk_fields fs rest)
        have hIH2 := parseFields_render fs f (by omega) rest hrest
        obtain ⟨k, v⟩ := kv
        rw [show renderField (k, v) = '"' :: (escape k.data ++ ('"' :: ':' :: renderChars v))
          from by simp [renderField], List.cons_append] at hIH ⊢
        rw [parseVal_succ_cons]
        simp only [List.append_assoc, List.cons_append] at hIH
        simp [hIH, hIH2]
termination_by sizeOf v

theorem parseItems_render (vs : List Json) : ∀ (f : Nat), sizeItems vs ≤ f →
    ∀ (rest : List Char), restOk rest →
    parseItems f (renderItems vs ++ ']' :: rest) = some (vs, rest) := by
  cases vs with
  | nil =>
    intro f hf rest hrest
    rw [show sizeItems [] = 1 from by simp [sizeItems]] at hf
    cases f with
    | zero => omega
    | succ f =>
      rw [show renderItems [] = [] from by simp [renderItems], List.nil_append,
        parseItems_succ_cons]
      simp
  | cons v vs =>
    intro f hf rest hrest
    rw [show sizeItems (v :: vs) = 1 + sizeJ v + sizeItems vs from by simp [sizeItems]] at hf
    cases f with
    | zero => omega
    | succ f =>
      rw [show renderItems (v :: vs) = ',' :: (renderChars v ++ renderItems vs)
        from by simp [renderItems], List.cons_append]
      have hL : (renderChars v ++ renderItems vs) ++ ']' :: rest
          = renderChars v ++ (renderItems vs ++ ']' :: rest) := by simp
      rw [hL]
      have hIH := parseVal_render v f (by omega) (renderItems vs ++ ']' :: rest)
        (restOk_items vs rest)
      have hIH2 := parseItems_render vs f (by omega) rest hrest
      rw [parseItems_succ_cons]
      simp [hIH, hIH2]
termination_by sizeOf vs

theorem parseField_render (kv : String × Json) : ∀ (f : Nat), sizeField kv ≤ f →
    ∀ (rest : List Char), restOk rest →
    parseField f (renderField kv ++ rest) = some (kv, rest) := by
  obtain ⟨k, v⟩ := kv
  intro f hf rest hrest
  rw [show sizeField (k, v) = 1 + sizeJ v from by simp [sizeField]] at hf
  cases f with
  | zero => omega
  | succ f =>
    rw [show renderField (k, v) = '"' :: (escape k.data ++ ('"' :: ':' :: renderChars v))
      from by simp [renderField], List.cons_append]
    have hL : (escape k.data ++ ('"' :: ':' :: renderChars v)) ++ rest
        = escape k.data ++ '"' :: (':' :: (renderChars v ++ rest)) := by simp
    rw [hL]
    have hIH := parseVal_render v f (by omega) rest hrest
    rw [parseField_succ_cons]
    rw [show parseStrAux (escape k.data ++ '"' :: (':' :: (renderChars v ++ rest))) [] =
      some (String.mk ([].reverse ++ k.data), ':' :: (renderChars v ++ rest)) from
      parseStrAux_escape k.data [] (':' :: (renderChars v ++ rest))]
    simp [mk_data, hIH]
termination_by sizeOf kv

theorem parseFields_render (fs : List (String × Json)) : ∀ (f : Nat), sizeFields fs ≤ f →
    ∀ (rest : List Char), restOk rest →
    parseFields f (renderFields fs ++ '\x7d' :: rest) = some (fs, rest) := by
  cases fs with
  | nil =>
    intro f hf rest hrest
    rw [show sizeFields [] = 1 from by simp [sizeFields]] at hf
    cases f with
    | zero => omega
    | succ f =>
      rw [show renderFields [] = [] from by simp [renderFields], List.nil_append,
        parseFields_succ_cons]
      simp
  | cons kv fs =>
    intro f hf rest hrest
    rw [show sizeFields (kv :: fs) = 1 + sizeField kv + sizeFields fs
      from by simp [sizeFields]] at hf
    cases f with
    | zero => omega
    | succ f =>
      rw [show renderFields (kv :: fs) = ',' :: (renderField kv ++ renderFields fs)
        from by simp [renderFields], List.cons_append]
      have hL : (renderField kv ++ renderFields fs) ++ '\x7d' :: rest
          = renderField kv ++ (renderFields fs ++ '\x7d' :: rest) := by simp
      rw [hL]
      have hIH := parseField_render kv f (by omega) (renderFields fs ++ '\x7d' :: rest)
        (restOk_fields fs rest)
      have hIH2 := parseFields_render fs f (by omega) rest hrest
      rw [parseFields_succ_cons]
      simp [hIH, hIH2]
termination_by sizeOf fs
end

mutual
theorem sizeJ_le (v : Json) : sizeJ v ≤ (renderChars v).length := by
  cases v with
  | null => simp [sizeJ, renderChars]
  | bool b => cases b <;> simp [sizeJ, renderChars]
  | num i =>
    rw [show sizeJ (.num i) = 1 from by simp [sizeJ],
      show renderChars (.num i) = intChars i from by simp [renderChars]]
    unfold intChars
    by_cases h : i < 0
    · rw [if_pos h]; simp
    · rw [if_neg h]
      have := natDigits_ne_nil i.toNat
      have : 0 < (natDigits i.toNat).length := List.length_pos.mpr this
      omega
  | str s => simp [sizeJ, renderChars]
  | arr vs =>
    cases vs with
    | nil => simp [sizeJ, renderChars]
    | cons v vs =>
      have h1 := sizeJ_le v
      have h2 := sizeItems_le vs
      rw [show sizeJ (.arr (v :: vs)) = 1 + sizeJ v + sizeItems vs from by simp [sizeJ],
        show renderChars (.arr (v :: vs)) = '[' :: (renderChars v ++ renderItems vs ++ [']'])
          from by simp [renderChars]]
      simp only [List.length_cons, List.length_append]
      omega
  | obj fs =>
    cases fs with
    | nil => simp [sizeJ, renderChars]
    | cons kv fs =>
      have h1 := sizeField_le kv
      have h2 := sizeFields_le fs
      rw [show sizeJ (.obj (kv :: fs)) = 1 + sizeField kv + sizeFields fs from by simp [sizeJ],
        show renderChars (.obj (kv :: fs))
            = '\x7b' :: (renderField kv ++ renderFields fs ++ ['\x7d'])
          from by simp [renderChars]]
      simp only [List.length_cons, List.length_append]
      omega
termination_by sizeOf v

theorem sizeItems_le (vs : List Json) : sizeItems vs ≤ (renderItems vs).length + 1 := by
  cases vs with
  | nil => simp [sizeItems, renderItems]
  | cons v vs =>
    have h1 := sizeJ_le v
    have h2 := sizeItems_le vs
    rw [show sizeItems (v :: vs) = 1 + sizeJ v + sizeItems vs from by simp [sizeItems],
      show renderItems (v :: vs) = ',' :: (renderChars v ++ renderItems vs)
        from by simp [renderItems]]
    simp only [List.length_cons, List.length_append]
    omega
termination_by sizeOf vs

theorem sizeField_le (kv : String × Json) : sizeField kv ≤ (renderField kv).length := by
  obtain ⟨k, v⟩ := kv
  have h1 := sizeJ_le v
  rw [show sizeField (k, v) = 1 + sizeJ v from by simp [sizeField],
    show renderField (k, v) = '"' :: (escape k.data ++ ('"' :: ':' :: renderChars v))
      from by simp [renderField]]
  simp only [List.length_cons, List.length_append]
  omega
termination_by sizeOf kv

theorem sizeFields_le (fs : List (String × Json)) :
    sizeFields fs ≤ (renderFields fs).length + 1 := by
  cases fs with
  | nil => simp [sizeFields, renderFields]
  | cons kv fs =>
    have h1 := sizeField_le kv
    have h2 := sizeFields_le fs
    rw [show sizeFields (kv :: fs) = 1 + sizeField kv + sizeFields fs from by simp [sizeFields],
      show renderFields (kv :: fs) = ',' :: (renderField kv ++ renderFields fs)
        from by simp [renderFields]]
    simp only [List.length_cons, List.length_append]
    omega
termination_by sizeOf fs
end

/-- JSON round trip: parsing a rendered value gives the value back. -/
theorem parse_render (v : Json) : Json.parse (Json.render v) = some v := by
  unfold Json.parse Json.render
  have h := parseVal_render v ((renderChars v).length + 1)
    (Nat.le_trans (sizeJ_le v) (by omega)) [] trivial
  rw [List.append_nil] at h
  rw [show (String.mk (renderChars v)).length = (renderChars v).length from rfl,
    show (String.mk (renderChars v)).data = renderChars v from rfl, h]

/-! Model of JavaScript runtime values and of the S3 client collaborator. -/

/-- A thrown JavaScript error, as observed by catch blocks: a name and a message. -/
structure JsError where
  name : String
  message : String
deriving Repr, DecidableEq

/-- JavaScript truthiness of a parsed JSON value. -/
def jsTruthy : Json → Bool
  | .null => false
  | .bool b => b
  | .num n => n != 0
  | .str s => s != ""
  | .arr _ => true
  | .obj _ => true

def lookupField : List (String × Json) → String → Option Json
  | [], _ => none
  | (k', v) :: rest, k => if k' = k then some v else lookupField rest k

/-- Property access on a parsed JSON value; absent properties are undefined (none). -/
def objLookup : Json → String → Option Json
  | .obj fields, k => lookupField fields k
  | _, _ => none

/-- Truthiness of a possibly-undefined value: undefined is falsy. -/
def jsTruthyOpt : Option Json → Bool
  | none => false
  | some j => jsTruthy j

/-- Property access as evaluated by the runtime: reading a property off null throws. -/
def jsField (j : Json) (name : String) : Except JsError (Option Json) :=
  match j with
  | .null => .error ⟨"TypeError", "Cannot read properties of null"⟩
  | _ => .ok (objLookup j name)

/-- JSON.parse as an expression that can throw (SyntaxError on malformed input). -/
def jsonTryParse (s : String) : Except JsError Json :=
  match Json.parse s with
  | some v => .ok v
  | none => .error ⟨"SyntaxError", "Unexpected token"⟩

/-- The external object-store collaborator: get-object (fetch plus body-to-string),
put-object, and paginated list-objects, each taking the bucket and acting on an
abstract backend state. -/
structure Client (σ : Type) where
  getObject : σ → String → String → Except JsError String × σ
  putObject : σ → String → String → String → Except JsError Unit × σ
  listPages : σ → String → String → Except JsError (List (List String)) × σ

/-- Process-default access key: AWS_ACCESS_KEY_ID or the minioadmin fallback. -/
def s3AccessKeyDB : String := "minioadmin"

/-- Process-default secret key: AWS_SECRET_ACCESS_KEY or the minioadmin fallback. -/
def s3SecretKeyDB : String := "minioadmin"

/-- Process-default bucket: AWS_S3_BUCKET or the media fallback. -/
def s3BucketDB : String := "media"

/-- The credential fields the configured client exposes
(s3Client.config.credentials.accessKeyId / secretAccessKey, possibly undefined). -/
structure CredConfig where
  accessKeyId : Option String
  secretAccessKey : Option String
deriving Repr, DecidableEq

/-- The bucketName, accessKey, secretKey record returned by getPoolCredentials. -/
structure PoolCred where
  bucketName : Json
  accessKey : Json
  secretKey : Json
deriving Repr

/-- JavaScript x || d for a possibly-undefined string-valued x. -/
def jsOrStr (v : Option String) (d : String) : String :=
  match v with
  | none => d
  | some s => if s = "" then d else s

/-- JavaScript x || d for a possibly-undefined JSON-valued x, with string default. -/
def jsOrJson (v : Option Json) (d : String) : Json :=
  match v with
  | none => .str d
  | some j => if jsTruthy j then j else .str d

/-- The test !profileId || profileId === 'default' on an optional profile id. -/
def isDefaultProfile : Option String → Bool
  | none => true
  | some p => p = "" || p = "default"

/-- The S3Database instance: the client, its bucket, the credentials the client
exposes, and the local cache of initialized table names. -/
structure S3Database (σ : Type) where
  client : Client σ
  bucket : String
  credentials : CredConfig
  tables : List String

/-- Embedding of S3Database.get: fetch the object, parse its body; NoSuchKey gives
null from the inner catch; every other error reaches the outer catch which logs
and returns null. -/
def S3Database.get (db : S3Database σ) (st : σ) (key : String) :
    Except JsError (Option Json) × σ :=
  let res := db.client.getObject st db.bucket key
  let inner : Except JsError Json :=
    match res.1 with
    | .ok body => jsonTryParse body
    | .error e => .error e
  match inner with
  | .ok d => (.ok (some d), res.2)
  | .error e =>
    if e.name = "NoSuchKey" then (.ok none, res.2)
    else (.ok none, res.2)

/-- Embedding of S3Database.put: serialize and write unconditionally; backend
errors are logged and rethrown. -/
def S3Database.put (db : S3Database σ) (st : σ) (key : String) (data : Json) :
    Except JsError Unit × σ :=
  let res := db.client.putObject st db.bucket key (Json.render data)
  match res.1 with
  | .ok _ => (.ok (), res.2)
  | .error e => (.error e, res.2)

/-- Embedding of S3Database.ensureTable: return immediately when cached; otherwise
fetch the metadata sentinel; on any fetch error create it with the current
timestamp; put errors reach the outer catch which logs and rethrows, leaving the
cache unchanged. -/
def S3Database.ensureTable (db : S3Database σ) (st : σ) (tableName now : String) :
    Except JsError Unit × S3Database σ × σ :=
  if tableName ∈ db.tables then (.ok (), db, st)
  else
    let key := tableName ++ "/_metadata.json"
    let res := db.client.getObject st db.bucket key
    match res.1 with
    | .ok _ => (.ok (), { db with tables := tableName :: db.tables }, res.2)
    | .error _ =>
      let body := Json.render (.obj [("tableName", .str tableName), ("created", .str now)])
      let pres := db.client.putObject res.2 db.bucket key body
      match pres.1 with
      | .ok _ => (.ok (), { db with tables := tableName :: db.tables }, pres.2)
      | .error e => (.error e, db, pres.2)

/-- Embedding of S3Database.getPoolCredentials: the default branch answers from
configuration without touching the backend; otherwise the pool record is fetched,
parsed and validated; NoSuchKey gives null from the inner catch, and every other
error (including the TypeError thrown by the logging branch when the parsed
record is null) reaches the outer catch which logs and returns null. -/
def S3Database.getPoolCredentials (db : S3Database σ) (st : σ)
    (profileId : Option String) : Except JsError (Option PoolCred) × σ :=
  if isDefaultProfile profileId then
    (.ok (some {
      bucketName := .str db.bucket
      accessKey := .str (jsOrStr db.credentials.accessKeyId s3AccessKeyDB)
      secretKey := .str (jsOrStr db.credentials.secretAccessKey s3SecretKeyDB) }), st)
  else
    let pid := profileId.getD ""
    let res := db.client.getObject st db.bucket ("pools/" ++ pid ++ ".json")
    let inner : Except JsError (Option PoolCred) :=
      match res.1 with
      | .error e => .error e
      | .ok body =>
        match jsonTryParse body with
        | .error e => .error e
        | .ok poolData =>
          if jsTruthy poolData then
            if jsTruthyOpt (objLookup poolData "bucketName")
                && jsTruthyOpt (objLookup poolData "accessKey")
                && jsTruthyOpt (objLookup poolData "secretKey") then
              .ok (some {
                bucketName := jsOrJson (objLookup poolData "bucketName") s3BucketDB
                accessKey := jsOrJson (objLookup poolData "accessKey") s3AccessKeyDB
                secretKey := jsOrJson (objLookup poolData "secretKey") s3SecretKeyDB })
            else .ok none
          else
            match jsField poolData "bucketName" with
            | .error e => .error e
            | .ok _ =>
              match jsField poolData "accessKey" with
              | .error e => .error e
              | .ok _ =>
                match jsField poolData "secretKey" with
                | .error e => .error e
                | .ok _ => .ok none
    match inner with
    | .ok v => (.ok v, res.2)
    | .error e =>
      if e.name = "NoSuchKey" then (.ok none, res.2)
      else (.ok none, res.2)

/-- Inner loop of getS3DataWithKey over the objects of one listed page: each item
is fetched and parsed, and per-item failures are caught, logged and skipped. -/
def S3Database.scanPageWithKey (db : S3Database σ) (keys : List String)
    (rows : List (String × Json)) (st : σ) : List (String × Json) × σ :=
  match keys with
  | [] => (rows, st)
  | k :: ks =>
    let res := db.client.getObject st db.bucket k
    match res.1 with
    | .ok body =>
      match Json.parse body with
      | some d => S3Database.scanPageWithKey db ks (rows ++ [(k, d)]) res.2
      | none => S3Database.scanPageWithKey db ks rows res.2
    | .error _ => S3Database.scanPageWithKey db ks rows res.2

/-- Outer loop of getS3DataWithKey over the listed pages. -/
def S3Database.scanPagesWithKey (db : S3Database σ) (pages : List (List String))
    (rows : List (String × Json)) (st : σ) : List (String × Json) × σ :=
  match pages with
  | [] => (rows, st)
  | p :: ps =>
    let r1 := S3Database.scanPageWithKey db p rows st
    S3Database.scanPagesWithKey db ps r1.1 r1.2

/-- Embedding of S3Database.getS3DataWithKey: paginated listing, then one fetch and
parse per object, collecting key-and-document pairs; a listing failure is not
caught and propagates. -/
def S3Database.getS3DataWithKey (db : S3Database σ) (st : σ) (pre : String) :
    Except JsError (List (String × Json)) × σ :=
  let lres := db.client.listPages st db.bucket pre
  match lres.1 with
  | .ok pages =>
    let r := S3Database.scanPagesWithKey db pages [] lres.2
    (.ok r.1, r.2)
  | .error e => (.error e, lres.2)

/-- Inner loop of getS3Data over the objects of one listed page. -/
def S3Database.scanPage (db : S3Database σ) (keys : List String)
    (rows : List Json) (st : σ) : List Json × σ :=
  match keys with
  | [] => (rows, st)
  | k :: ks =>
    let res := db.client.getObject st db.bucket k
    match res.1 with
    | .ok body =>
      match Json.parse body with
      | some d => S3Database.scanPage db ks (rows ++ [d]) res.2
      | none => S3Database.scanPage db ks rows res.2
    | .error _ => S3Database.scanPage db ks rows res.2

/-- Outer loop of getS3Data over the listed pages. -/
def S3Database.scanPages (db : S3Database σ) (pages : List (List String))
    (rows : List Json) (st : σ) : List Json × σ :=
  match pages with
  | [] => (rows, st)
  | p :: ps =>
    let r1 := S3Database.scanPage db p rows st
    S3Database.scanPages db ps r1.1 r1.2

/-- Embedding of S3Database.getS3Data: same scan as getS3DataWithKey but keeping
only the parsed documents. -/
def S3Database.getS3Data (db : S3Database σ) (st : σ) (pre : String) :
    Except JsError (List Json) × σ :=
  let lres := db.client.listPages st db.bucket pre
  match lres.1 with
  | .ok pages =>
    let r := S3Database.scanPages db pages [] lres.2
    (.ok r.1, r.2)
  | .error e => (.error e, lres.2)

/-! An honest S3 backend over an in-memory store, recording the operations issued. -/

/-- A backend operation, recorded in the trace. -/
inductive S3Op where
  | getOp (bucket key : String)
  | putOp (bucket key body : String)
  | listOp (bucket pre : String)
deriving Repr, DecidableEq

/-- Backend state: the stored objects (key to body) and the trace of operations. -/
structure S3State where
  store : List (String × String)
  ops : List S3Op
deriving Repr, DecidableEq

def lookupKey : List (String × String) → String → Option String
  | [], _ => none
  | (k', v) :: rest, k => if k' = k then some v else lookupKey rest k

/-- Overwrite-or-append write, as S3 put-object behaves. -/
def insertKey : List (String × String) → String → String → List (String × String)
  | [], k, v => [(k, v)]
  | (k', v') :: rest, k, v =>
    if k' = k then (k, v) :: rest else (k', v') :: insertKey rest k v

/-- Split a list into chunks of at most n + 1 elements. -/
def chunks (n : Nat) : List α → List (List α)
  | [] => []
  | x :: xs => (x :: xs.take n) :: chunks n (xs.drop n)
termination_by l => l.length
decreasing_by simp; omega

def listIsPrefix : List Char → List Char → Bool
  | [], _ => true
  | _ :: _, [] => false
  | a :: as, b :: bs => a == b && listIsPrefix as bs

/-- Whether the string p is a prefix of the string s. -/
def strStartsWith (p s : String) : Bool := listIsPrefix p.data s.data

/-- The keys currently under a prefix, in store order. -/
def keysUnder (store : List (String × String)) (pre : String) : List String :=
  (store.map Prod.fst).filter (fun k => strStartsWith pre k)

/-- The honest backend: get returns the stored body or NoSuchKey, put overwrites,
list enumerates the keys under the prefix in pages of at most 1000. -/
def honest : Client S3State where
  getObject st bucket key :=
    (match lookupKey st.store key with
     | some body => .ok body
     | none => .error ⟨"NoSuchKey", "The specified key does not exist."⟩,
     { st with ops := st.ops ++ [.getOp bucket key] })
  putObject st bucket key body :=
    (.ok (), { store := insertKey st.store key body,
               ops := st.ops ++ [.putOp bucket key body] })
  listPages st bucket pre :=
    (.ok (chunks 999 (keysUnder st.store pre)),
     { st with ops := st.ops ++ [.listOp bucket pre] })

/-- An S3Database over the honest backend with the default bucket. -/
def honestDB (tables : List String) : S3Database S3State :=
  { client := honest, bucket := s3BucketDB, credentials := ⟨none, none⟩, tables := tables }

/-- A client whose get-object always fails with the given error. -/
def errClient (e : JsError) : Client Unit where
  getObject st _ _ := (.error e, st)
  putObject st _ _ _ := (.ok (), st)
  listPages st _ _ := (.ok [], st)

/-- A client whose get-object always succeeds with the given body. -/
def bodyClient (body : String) : Client Unit where
  getObject st _ _ := (.ok body, st)
  putObject st _ _ _ := (.ok (), st)
  listPages st _ _ := (.ok [], st)

/-- An S3Database over a stateless test client. -/
def mkDB (c : Client Unit) : S3Database Unit :=
  { client := c, bucket := s3BucketDB,
    credentials := ⟨some s3AccessKeyDB, some s3SecretKeyDB⟩, tables := [] }

/-- The honest backend, except that get-object always fails with AccessDenied. -/
def denyGetClient : Client S3State :=
  { honest with getObject := fun st bucket key =>
      (.error ⟨"AccessDenied", "Access Denied"⟩,
       { st with ops := st.ops ++ [.getOp bucket key] }) }

/-! Claim C1 -/

/-- C1 counterexample: get converts a non-NoSuchKey backend error (AccessDenied) and
a JSON parse failure to an empty result instead of propagating them; the outer
catch returns null in both cases, refuting the claimed propagation. -/
theorem C1_counterexample :
    (S3Database.get (mkDB (errClient ⟨"AccessDenied", "Access Denied"⟩)) () "k").1
      = Except.ok none
    ∧ (S3Database.get (mkDB (bodyClient "not json")) () "k").1 = Except.ok none :=
  ⟨rfl, rfl⟩

/-- C1 (amended): for every key, get never throws; a successful fetch yields the
parse result (so a parse failure yields an empty result, logged, not propagated),
and any fetch error - not found or otherwise - also yields an empty result. -/
theorem C1_get_amended {σ : Type} (db : S3Database σ) (st : σ) (key : String) :
    (∃ v, (db.get st key).1 = Except.ok v)
    ∧ (∀ body, (db.client.getObject st db.bucket key).1 = Except.ok body →
        db.get st key
          = (Except.ok (Json.parse body), (db.client.getObject st db.bucket key).2))
    ∧ (∀ e, (db.client.getObject st db.bucket key).1 = Except.error e →
        db.get st key = (Except.ok none, (db.client.getObject st db.bucket key).2)) := by
  have hok : ∀ body, (db.client.getObject st db.bucket key).1 = Except.ok body →
      db.get st key
        = (Except.ok (Json.parse body), (db.client.getObject st db.bucket key).2) := by
    intro body hb
    simp only [S3Database.get]
    rw [hb]
    cases hp : Json.parse body with
    | some d => simp [jsonTryParse, hp]
    | none => simp [jsonTryParse, hp]
  have herr : ∀ e, (db.client.getObject st db.bucket key).1 = Except.error e →
      db.get st key = (Except.ok none, (db.client.getObject st db.bucket key).2) := by
    intro e he
    simp only [S3Database.get]
    rw [he]
    by_cases hn : e.name = "NoSuchKey" <;> simp [hn]
  refine ⟨?_, hok, herr⟩
  cases hg : (db.client.getObject st db.bucket key).1 with
  | ok body => exact ⟨Json.parse body, by rw [hok body hg]⟩
  | error e => exact ⟨none, by rw [herr e hg]⟩

/-- C1 witness: the amended theorem applied to a concrete erroring backend. -/
theorem C1_get_amended_witness :
    S3Database.get (mkDB (errClient ⟨"Boom", "boom"⟩)) () "k" = (Except.ok none, ()) := by
  have h := C1_get_amended (mkDB (errClient ⟨"Boom", "boom"⟩)) () "k"
  exact h.2.2 ⟨"Boom", "boom"⟩ rfl

/-! Claim C2 -/

/-- C2 counterexample: for a non-default profile, a non-NoSuchKey backend error
(AccessDenied) is not propagated: the outer catch returns null. -/
theorem C2_counterexample :
    (S3Database.getPoolCredentials (mkDB (errClient ⟨"AccessDenied", "Access Denied"⟩))
      () (some "tenant1")).1 = Except.ok none := rfl

/-- C2 (amended): for a non-default profile, getPoolCredentials never throws, and
every fetch error - not found or any other backend error - yields an empty result. -/
theorem C2_pool_errors_swallowed {σ : Type} (db : S3Database σ) (st : σ) (p : String)
    (hp1 : p ≠ "") (hp2 : p ≠ "default") :
    (∃ v, (db.getPoolCredentials st (some p)).1 = Except.ok v)
    ∧ (∀ e, (db.client.getObject st db.bucket ("pools/" ++ p ++ ".json")).1
          = Except.error e →
        db.getPoolCredentials st (some p)
          = (Except.ok none,
             (db.client.getObject st db.bucket ("pools/" ++ p ++ ".json")).2)) := by
  have hdef : isDefaultProfile (some p) = false := by
    simp [isDefaultProfile, hp1, hp2]
  have herr : ∀ e, (db.client.getObject st db.bucket ("pools/" ++ p ++ ".json")).1
      = Except.error e →
      db.getPoolCredentials st (some p)
        = (Except.ok none,
           (db.client.getObject st db.bucket ("pools/" ++ p ++ ".json")).2) := by
    intro e he
    simp only [S3Database.getPoolCredentials, hdef]
    simp only [Bool.false_eq_true, if_false, Option.getD]
    rw [he]
    by_cases hn : e.name = "NoSuchKey" <;> simp [hn]
  refine ⟨?_, herr⟩
  cases hg : (db.client.getObject st db.bucket ("pools/" ++ p ++ ".json")).1 with
  | error e => exact ⟨none, by rw [herr e hg]⟩
  | ok body =>
    simp only [S3Database.getPoolCredentials, hdef]
    simp only [Bool.false_eq_true, if_false, Option.getD]
    rw [hg]
    cases hp : Json.parse body with
    | none => exact ⟨none, by simp [jsonTryParse, hp]⟩
    | some poolData =>
      cases ht : jsTruthy poolData with
      | true =>
        cases hcond : (jsTruthyOpt (objLookup poolData "bucketName")
            && jsTruthyOpt (objLookup poolData "accessKey")
            && jsTruthyOpt (objLookup poolData "secretKey")) with
        | true =>
          exact ⟨some ⟨jsOrJson (objLookup poolData "bucketName") s3BucketDB,
            jsOrJson (objLookup poolData "accessKey") s3AccessKeyDB,
            jsOrJson (objLookup poolData "secretKey") s3SecretKeyDB⟩,
            by simp [jsonTryParse, hp, ht, hcond]⟩
        | false => exact ⟨none, by simp [jsonTryParse, hp, ht, hcond]⟩
      | false =>
        cases poolData with
        | null => exact ⟨none, by simp [jsonTryParse, hp, ht, jsField]⟩
        | bool b => exact ⟨none, by simp [jsonTryParse, hp, ht, jsField]⟩
        | num n => exact ⟨none, by simp [jsonTryParse, hp, ht, jsField]⟩
        | str s2 => exact ⟨none, by simp [jsonTryParse, hp, ht, jsField]⟩
        | arr xs => exact ⟨none, by simp [jsonTryParse, hp, ht, jsField]⟩
        | obj fs => exact ⟨none, by simp [jsonTryParse, hp, ht, jsField]⟩

/-- C2 witness: the amended theorem applied to a concrete denied backend. -/
theorem C2_pool_errors_swallowed_witness :
    S3Database.getPoolCredentials (mkDB (errClient ⟨"AccessDenied", "Access Denied"⟩))
      () (some "tenant1") = (Except.ok none, ()) := by
  have h := C2_pool_errors_swallowed
    (mkDB (errClient ⟨"AccessDenied", "Access Denied"⟩)) () "tenant1"
    (by decide) (by decide)
  exact h.2 ⟨"AccessDenied", "Access Denied"⟩ rfl

/-! Claim C7 -/

/-- C7: for an absent or default profile id, getPoolCredentials answers with the
store bucket and the configured client credentials, falling back to the process
defaults when the client exposes none, and performs no backend call: the backend
state is returned untouched, for every client. -/
theorem C7_default_credentials {σ : Type} (db : S3Database σ) (st : σ)
    (pid : Option String) (hp : isDefaultProfile pid = true) :
    db.getPoolCredentials st pid
      = (Except.ok (some
          ⟨.str db.bucket,
           .str (jsOrStr db.credentials.accessKeyId s3AccessKeyDB),
           .str (jsOrStr db.credentials.secretAccessKey s3SecretKeyDB)⟩), st) := by
  simp only [S3Database.getPoolCredentials, hp, if_true]

/-- C7 witness: concrete instances for both the absent and the default profile id,
over a client with no exposed credentials. -/
theorem C7_default_credentials_witness :
    S3Database.getPoolCredentials (honestDB []) ⟨[], []⟩ (some "default")
      = (Except.ok (some ⟨.str "media", .str "minioadmin", .str "minioadmin"⟩), ⟨[], []⟩)
    ∧ S3Database.getPoolCredentials (honestDB []) ⟨[], []⟩ none
      = (Except.ok (some ⟨.str "media", .str "minioadmin", .str "minioadmin"⟩), ⟨[], []⟩) :=
  ⟨C7_default_credentials (honestDB []) ⟨[], []⟩ (some "default") rfl,
   C7_default_credentials (honestDB []) ⟨[], []⟩ none rfl⟩

/-! Claim C8 -/

/-- C8 counterexample: a pool record whose accessKey is present but empty (falsy) is
rejected by the validation and yields an empty result; the claimed substitution of
the process default for the falsy field never happens. -/
theorem C8_counterexample :
    (S3Database.getPoolCredentials
      (mkDB (bodyClient
        "\x7b\"bucketName\":\"b\",\"accessKey\":\"\",\"secretKey\":\"s\"\x7d"))
      () (some "p1")).1 = Except.ok none
    ∧ (S3Database.getPoolCredentials
      (mkDB (bodyClient
        "\x7b\"bucketName\":\"b\",\"accessKey\":\"\",\"secretKey\":\"s\"\x7d"))
      () (some "p1")).1
      ≠ Except.ok (some ⟨.str "b", .str s3AccessKeyDB, .str "s"⟩) := by
  constructor
  · rfl
  · intro h
    rw [show (S3Database.getPoolCredentials
      (mkDB (bodyClient
        "\x7b\"bucketName\":\"b\",\"accessKey\":\"\",\"secretKey\":\"s\"\x7d"))
      () (some "p1")).1 = Except.ok none from rfl] at h
    simp at h

/-- C8 (amended): when the fetch and parse of a pool record succeed and the record
is truthy: if all three required fields are present and truthy they are returned
exactly as stored (the default-substitution in the return expression never takes
effect); if any of the three is absent or present-but-falsy, the result is empty. -/
theorem C8_pool_fields {σ : Type} (db : S3Database σ) (st : σ) (p : String)
    (hp1 : p ≠ "") (hp2 : p ≠ "default") (body : String)
    (hb : (db.client.getObject st db.bucket ("pools/" ++ p ++ ".json")).1
      = Except.ok body)
    (poolData : Json) (hparse : Json.parse body = some poolData)
    (htr : jsTruthy poolData = true) :
    (∀ b a k2, objLookup poolData "bucketName" = some b → jsTruthy b = true →
       objLookup poolData "accessKey" = some a → jsTruthy a = true →
       objLookup poolData "secretKey" = some k2 → jsTruthy k2 = true →
       db.getPoolCredentials st (some p)
         = (Except.ok (some ⟨b, a, k2⟩),
            (db.client.getObject st db.bucket ("pools/" ++ p ++ ".json")).2))
    ∧ ((jsTruthyOpt (objLookup poolData "bucketName")
         && jsTruthyOpt (objLookup poolData "accessKey")
         && jsTruthyOpt (objLookup poolData "secretKey")) = false →
       db.getPoolCredentials st (some p)
         = (Except.ok none,
            (db.client.getObject st db.bucket ("pools/" ++ p ++ ".json")).2)) := by
  have hdef : isDefaultProfile (some p) = false := by
    simp [isDefaultProfile, hp1, hp2]
  constructor
  · intro b a k2 hb1 ht1 hb2 ht2 hb3 ht3
    simp only [S3Database.getPoolCredentials, hdef]
    simp only [Bool.false_eq_true, if_false, Option.getD]
    rw [hb]
    simp [jsonTryParse, hparse, htr, hb1, hb2, hb3, jsTruthyOpt, ht1, ht2, ht3, jsOrJson]
  · intro hcond
    simp only [S3Database.getPoolCredentials, hdef]
    simp only [Bool.false_eq_true, if_false, Option.getD]
    rw [hb]
    simp [jsonTryParse, hparse, htr, hcond]

/-- C8 witness: the amended theorem applied to a concrete valid pool record. -/
theorem C8_pool_fields_witness :
    S3Database.getPoolCredentials
      (mkDB (bodyClient
        "\x7b\"bucketName\":\"b\",\"accessKey\":\"a\",\"secretKey\":\"s\"\x7d"))
      () (some "p1")
      = (Except.ok (some ⟨.str "b", .str "a", .str "s"⟩), ()) := by
  have h := C8_pool_fields
    (mkDB (bodyClient
      "\x7b\"bucketName\":\"b\",\"accessKey\":\"a\",\"secretKey\":\"s\"\x7d"))
    () "p1" (by decide) (by decide)
    "\x7b\"bucketName\":\"b\",\"accessKey\":\"a\",\"secretKey\":\"s\"\x7d"
    rfl (.obj [("bucketName", .str "b"), ("accessKey", .str "a"), ("secretKey", .str "s")])
    (by rfl) rfl
  exact h.1 (.str "b") (.str "a") (.str "s") rfl rfl rfl rfl rfl rfl

/-! Counting keys in the store, for the sentinel-uniqueness statements. -/

/-- How many stored objects sit at a given key. -/
def countKey (store : List (String × String)) (k : String) : Nat :=
  (store.filter (fun kv => kv.1 == k)).length

theorem countKey_of_not_mem : ∀ (store : List (String × String)) (k : String),
    k ∉ store.map Prod.fst → countKey store k = 0 := by
  intro store k
  induction store with
  | nil => intro _; rfl
  | cons kv rest ih =>
    intro h
    simp only [List.map_cons, List.mem_cons] at h
    push_neg at h
    have hk : (kv.1 == k) = false := by simp [Ne.symm h.1]
    simp only [countKey, List.filter_cons, hk]
    exact ih h.2

theorem countKey_of_lookup_none : ∀ (store : List (String × String)) (k : String),
    lookupKey store k = none → countKey store k = 0 := by
  intro store k
  induction store with
  | nil => intro _; rfl
  | cons kv rest ih =>
    obtain ⟨k', v'⟩ := kv
    intro h
    rw [lookupKey] at h
    by_cases hk : k' = k
    · rw [if_pos hk] at h; exact absurd h (by simp)
    · rw [if_neg hk] at h
      have hkb : ((k', v').1 == k) = false := by simp [hk]
      simp only [countKey, List.filter_cons, hkb]
      exact ih h

theorem countKey_insertKey_of_none : ∀ (store : List (String × String)) (k v : String),
    lookupKey store k = none → countKey (insertKey store k v) k = 1 := by
  intro store k v
  induction store with
  | nil => intro _; simp [insertKey, countKey]
  | cons kv rest ih =>
    obtain ⟨k', v'⟩ := kv
    intro h
    rw [lookupKey] at h
    by_cases hk : k' = k
    · rw [if_pos hk] at h; exact absurd h (by simp)
    · rw [if_neg hk] at h
      have hkb : ((k', v').1 == k) = false := by simp [hk]
      simp only [insertKey, if_neg hk, countKey, List.filter_cons, hkb]
      exact ih h

theorem countKey_of_nodup_lookup_some :
    ∀ (store : List (String × String)) (k v : String),
    (store.map Prod.fst).Nodup → lookupKey store k = some v → countKey store k = 1 := by
  intro store k v
  induction store with
  | nil => intro _ h; exact absurd h (by simp [lookupKey])
  | cons kv rest ih =>
    obtain ⟨k', v'⟩ := kv
    intro hnd h
    simp only [List.map_cons, List.nodup_cons] at hnd
    rw [lookupKey] at h
    by_cases hk : k' = k
    · subst hk
      have hkb : ((k', v').1 == k') = true := by simp
      simp only [countKey, List.filter_cons, hkb, List.length_cons]
      have h0 : countKey rest k' = 0 := countKey_of_not_mem rest k' hnd.1
      simp only [countKey] at h0
      simp [h0]
    · rw [if_neg hk] at h
      have hkb : ((k', v').1 == k) = false := by simp [hk]
      simp only [countKey, List.filter_cons, hkb]
      exact ih hnd.2 h

theorem lookupKey_insertKey : ∀ (store : List (String × String)) (k v : String),
    lookupKey (insertKey store k v) k = some v := by
  intro store k v
  induction store with
  | nil => simp [insertKey, lookupKey]
  | cons kv rest ih =>
    obtain ⟨k', v'⟩ := kv
    by_cases hk : k' = k
    · simp [insertKey, hk, lookupKey]
    · simp only [insertKey, if_neg hk, lookupKey]
      exact ih

/-! Claim C3 -/

/-- C3: behavior at the failing input: the sentinel fetch fails with AccessDenied
(not a not-found) while a sentinel already exists; ensureTable nevertheless
overwrites the sentinel, adds the table to the cache and returns success, instead
of logging and rethrowing without writing. -/
theorem C3_ensureTable_creates_on_any_error :
    (S3Database.ensureTable
      { client := denyGetClient, bucket := s3BucketDB, credentials := ⟨none, none⟩,
        tables := [] }
      ⟨[("orders/_metadata.json", "old")], []⟩ "orders" "T").1 = Except.ok ()
    ∧ (S3Database.ensureTable
      { client := denyGetClient, bucket := s3BucketDB, credentials := ⟨none, none⟩,
        tables := [] }
      ⟨[("orders/_metadata.json", "old")], []⟩ "orders" "T").2.1.tables = ["orders"]
    ∧ lookupKey ((S3Database.ensureTable
      { client := denyGetClient, bucket := s3BucketDB, credentials := ⟨none, none⟩,
        tables := [] }
      ⟨[("orders/_metadata.json", "old")], []⟩ "orders" "T").2.2).store
        "orders/_metadata.json"
      = some "\x7b\"tableName\":\"orders\",\"created\":\"T\"\x7d" :=
  ⟨rfl, rfl, rfl⟩

/-! Claim C6 -/

/-- C6: over the honest backend, a first ensureTable call on an uncached table
succeeds and leaves exactly one metadata sentinel in the store, and the second
call returns immediately with no error, no backend operation and no state change. -/
theorem C6_ensureTable_idempotent (st : S3State) (tables : List String)
    (t now now2 : String) (hnodup : (st.store.map Prod.fst).Nodup) (ht : t ∉ tables) :
    ((honestDB tables).ensureTable st t now).1 = Except.ok ()
    ∧ countKey (((honestDB tables).ensureTable st t now).2.2).store
        (t ++ "/_metadata.json") = 1
    ∧ (((honestDB tables).ensureTable st t now).2.1).ensureTable
        (((honestDB tables).ensureTable st t now).2.2) t now2
      = (Except.ok (), ((honestDB tables).ensureTable st t now).2.1,
         ((honestDB tables).ensureTable st t now).2.2) := by
  cases hlk : lookupKey st.store (t ++ "/_metadata.json") with
  | some body =>
    have hr : (honestDB tables).ensureTable st t now
        = (Except.ok (), { honestDB tables with tables := t :: tables },
           { st with ops := st.ops ++ [.getOp s3BucketDB (t ++ "/_metadata.json")] }) := by
      simp only [S3Database.ensureTable, honestDB, honest, if_neg ht, hlk]
    rw [hr]
    refine ⟨rfl, ?_, ?_⟩
    · exact countKey_of_nodup_lookup_some st.store _ body hnodup hlk
    · simp [S3Database.ensureTable]
  | none =>
    have hr : (honestDB tables).ensureTable st t now
        = (Except.ok (), { honestDB tables with tables := t :: tables },
           { store := insertKey st.store (t ++ "/_metadata.json")
               (Json.render (.obj [("tableName", .str t), ("created", .str now)])),
             ops := st.ops ++ [.getOp s3BucketDB (t ++ "/_metadata.json"),
               .putOp s3BucketDB (t ++ "/_metadata.json")
                 (Json.render (.obj [("tableName", .str t), ("created", .str now)]))] }) := by
      simp only [S3Database.ensureTable, honestDB, honest, if_neg ht, hlk]
      simp
    rw [hr]
    refine ⟨rfl, ?_, ?_⟩
    · exact countKey_insertKey_of_none st.store _ _ hlk
    · simp [S3Database.ensureTable]

/-- C6 witness: the theorem at a concrete fresh store and empty cache. -/
theorem C6_ensureTable_idempotent_witness :
    ((honestDB []).ensureTable ⟨[], []⟩ "orders" "T").1 = Except.ok ()
    ∧ countKey (((honestDB []).ensureTable ⟨[], []⟩ "orders" "T").2.2).store
        ("orders" ++ "/_metadata.json") = 1
    ∧ (((honestDB []).ensureTable ⟨[], []⟩ "orders" "T").2.1).ensureTable
        (((honestDB []).ensureTable ⟨[], []⟩ "orders" "T").2.2) "orders" "T2"
      = (Except.ok (), ((honestDB []).ensureTable ⟨[], []⟩ "orders" "T").2.1,
         ((honestDB []).ensureTable ⟨[], []⟩ "orders" "T").2.2) :=
  C6_ensureTable_idempotent ⟨[], []⟩ [] "orders" "T" "T2" (by simp) (by simp)

/-! Claim C4 -/

/-- C4: over the honest backend, put followed by get on the same key returns the
document unchanged: the stored body is the rendering of d, and get parses it back
to d by the codec round trip. -/
theorem C4_put_get_roundtrip (st : S3State) (tables : List String) (k : String)
    (d : Json) :
    ((honestDB tables).put st k d).1 = Except.ok ()
    ∧ ((honestDB tables).get (((honestDB tables).put st k d).2) k).1
      = Except.ok (some d) := by
  constructor
  · simp [S3Database.put, honestDB, honest]
  · have hput : (((honestDB tables).put st k d).2).store
        = insertKey st.store k (Json.render d) := by
      simp [S3Database.put, honestDB, honest]
    simp only [honestDB, honest] at hput
    simp only [S3Database.get, honestDB, honest]
    rw [hput, lookupKey_insertKey]
    simp [jsonTryParse, parse_render]

/-! Scan loop characterization lemmas -/

theorem chunks_flatten (n : Nat) : (l : List α) → (chunks n l).flatten = l
  | [] => by simp [chunks]
  | x :: xs => by
    rw [chunks]
    simp only [List.flatten_cons]
    rw [chunks_flatten n (xs.drop n), List.cons_append, List.take_append_drop]
termination_by l => l.length
decreasing_by simp; omega

theorem scanPageWithKey_honest (tables : List String) :
    ∀ (keys : List String) (rowsK : List (String × Json)) (st : S3State),
    ((honestDB tables).scanPageWithKey keys rowsK st).1
      = rowsK ++ keys.filterMap
          (fun k => ((lookupKey st.store k).bind Json.parse).map (fun d => (k, d)))
    ∧ (((honestDB tables).scanPageWithKey keys rowsK st).2).store = st.store := by
  intro keys
  induction keys with
  | nil => intro rowsK st; simp [S3Database.scanPageWithKey]
  | cons k ks ih =>
    intro rowsK st
    simp only [S3Database.scanPageWithKey, honestDB, honest]
    cases hlk : lookupKey st.store k with
    | some body =>
      cases hp : Json.parse body with
      | some d =>
        simp only [hlk, hp]
        have hih := ih (rowsK ++ [(k, d)]) { st with ops := st.ops ++ [.getOp s3BucketDB k] }
        simp only [honestDB, honest] at hih
        simp only [List.filterMap_cons, hlk, Option.some_bind, hp, Option.map_some]
        rw [hih.1, hih.2]
        exact ⟨by simp, rfl⟩
      | none =>
        simp only [hlk, hp]
        have hih := ih rowsK { st with ops := st.ops ++ [.getOp s3BucketDB k] }
        simp only [honestDB, honest] at hih
        simp only [List.filterMap_cons, hlk, Option.some_bind, hp, Option.map_none]
        rw [hih.1, hih.2]
        exact ⟨rfl, rfl⟩
    | none =>
      simp only [hlk]
      have hih := ih rowsK { st with ops := st.ops ++ [.getOp s3BucketDB k] }
      simp only [honestDB, honest] at hih
      simp only [List.filterMap_cons, hlk, Option.none_bind, Option.map_none]
      rw [hih.1, hih.2]
      exact ⟨rfl, rfl⟩

theorem scanPagesWithKey_honest (tables : List String) :
    ∀ (pages : List (List String)) (rowsK : List (String × Json)) (st : S3State),
    ((honestDB tables).scanPagesWithKey pages rowsK st).1
      = rowsK ++ pages.flatten.filterMap
          (fun k => ((lookupKey st.store k).bind Json.parse).map (fun d => (k, d)))
    ∧ (((honestDB tables).scanPagesWithKey pages rowsK st).2).store = st.store := by
  intro pages
  induction pages with
  | nil => intro rowsK st; simp [S3Database.scanPagesWithKey]
  | cons p ps ih =>
    intro rowsK st
    simp only [S3Database.scanPagesWithKey]
    have h1 := scanPageWithKey_honest tables p rowsK st
    have h2 := ih (((honestDB tables).scanPageWithKey p rowsK st).1)
      (((honestDB tables).scanPageWithKey p rowsK st).2)
    rw [h2.1, h2.2, h1.1, h1.2]
    simp [List.filterMap_append, List.append_assoc]

/-! Claim C9 -/

/-- C9: over the honest backend, getS3DataWithKey returns exactly one entry per
listed object whose body parses, and each entry carries the exact full key the
backend listed together with the document parsed from the body stored at that
same key. -/
theorem C9_scan_keys (st : S3State) (tables : List String) (pre : String) :
    ((honestDB tables).getS3DataWithKey st pre).1
      = Except.ok ((keysUnder st.store pre).filterMap
          (fun k => ((lookupKey st.store k).bind Json.parse).map (fun d => (k, d))))
    ∧ ∀ kd ∈ (keysUnder st.store pre).filterMap
          (fun k => ((lookupKey st.store k).bind Json.parse).map (fun d => (k, d))),
        kd.1 ∈ keysUnder st.store pre
        ∧ (lookupKey st.store kd.1).bind Json.parse = some kd.2 := by
  constructor
  · simp only [S3Database.getS3DataWithKey, honestDB, honest]
    have h := scanPagesWithKey_honest tables (chunks 999 (keysUnder st.store pre)) []
      { st with ops := st.ops ++ [.listOp s3BucketDB pre] }
    simp only [honestDB, honest] at h
    rw [h.1]
    simp [chunks_flatten]
  · intro kd hkd
    rcases List.mem_filterMap.mp hkd with ⟨a, ha, hfa⟩
    cases hb : (lookupKey st.store a).bind Json.parse with
    | none => rw [hb] at hfa; simp at hfa
    | some d =>
      rw [hb] at hfa
      simp at hfa
      subst hfa
      exact ⟨ha, hb⟩

/-- C9 witness: the theorem applied to a concrete store holding one parseable and
one corrupt object under the prefix. -/
theorem C9_scan_keys_witness :
    (("orders/a.json", Json.num 1) : String × Json).1
      ∈ keysUnder [("orders/a.json", "1"), ("orders/b.json", "x")] "orders/"
    ∧ (lookupKey [("orders/a.json", "1"), ("orders/b.json", "x")]
        (("orders/a.json", Json.num 1) : String × Json).1).bind Json.parse
      = some (("orders/a.json", Json.num 1) : String × Json).2 := by
  have h := (C9_scan_keys ⟨[("orders/a.json", "1"), ("orders/b.json", "x")], []⟩ [] "orders/").2
    ("orders/a.json", Json.num 1)
  refine h ?_
  show ("orders/a.json", Json.num 1) ∈ ([("orders/a.json", Json.num 1)] : List (String × Json))
  exact List.mem_singleton.mpr rfl

/-! Claim C10 -/

theorem scanPage_map {σ : Type} (db : S3Database σ) :
    ∀ (keys : List String) (rowsK : List (String × Json)) (st : σ),
    db.scanPage keys (rowsK.map Prod.snd) st
      = ((db.scanPageWithKey keys rowsK st).1.map Prod.snd,
         (db.scanPageWithKey keys rowsK st).2) := by
  intro keys
  induction keys with
  | nil => intro rowsK st; simp [S3Database.scanPage, S3Database.scanPageWithKey]
  | cons k ks ih =>
    intro rowsK st
    simp only [S3Database.scanPage, S3Database.scanPageWithKey]
    cases hg : (db.client.getObject st db.bucket k).1 with
    | ok body =>
      cases hp : Json.parse body with
      | some d =>
        simp only [hg, hp]
        have : rowsK.map Prod.snd ++ [d] = (rowsK ++ [(k, d)]).map Prod.snd := by simp
        rw [this, ih (rowsK ++ [(k, d)])]
      | none =>
        simp only [hg, hp]
        exact ih rowsK _
    | error e =>
      simp only [hg]
      exact ih rowsK _

theorem scanPages_map {σ : Type} (db : S3Database σ) :
    ∀ (pages : List (List String)) (rowsK : List (String × Json)) (st : σ),
    db.scanPages pages (rowsK.map Prod.snd) st
      = ((db.scanPagesWithKey pages rowsK st).1.map Prod.snd,
         (db.scanPagesWithKey pages rowsK st).2) := by
  intro pages
  induction pages with
  | nil => intro rowsK st; simp [S3Database.scanPages, S3Database.scanPagesWithKey]
  | cons p ps ih =>
    intro rowsK st
    simp only [S3Database.scanPages, S3Database.scanPagesWithKey]
    rw [scanPage_map db p rowsK st]
    exact ih ((db.scanPageWithKey p rowsK st).1) ((db.scanPageWithKey p rowsK st).2)

/-- C10: for every client, backend state and prefix, getS3Data returns exactly the
data projection of getS3DataWithKey, entry for entry in the same order, with the
same final backend state and the same error behavior. -/
theorem C10_scan_equiv {σ : Type} (db : S3Database σ) (st : σ) (pre : String) :
    db.getS3Data st pre
      = (Except.map (List.map Prod.snd) (db.getS3DataWithKey st pre).1,
         (db.getS3DataWithKey st pre).2) := by
  simp only [S3Database.getS3Data, S3Database.getS3DataWithKey]
  cases hl : (db.client.listPages st db.bucket pre).1 with
  | ok pages =>
    simp only
    have := scanPages_map db pages [] ((db.client.listPages st db.bucket pre).2)
    simp only [List.map_nil] at this
    rw [this]
    simp [Except.map]
  | error e => simp [Except.map]

/-! Claim C5 -/

theorem length_filterMap_eq_length_filter {α β : Type} (f : α → Option β) :
    ∀ (l : List α), (l.filterMap f).length = (l.filter (fun a => (f a).isSome)).length := by
  intro l
  induction l with
  | nil => rfl
  | cons x xs ih =>
    cases hf : f x with
    | some b => simp [List.filterMap_cons, List.filter_cons, hf, ih]
    | none => simp [List.filterMap_cons, List.filter_cons, hf, ih]

/-- C5: over the honest backend, getS3Data does not throw and returns exactly the
documents whose stored bodies parse, one per listed key under the prefix, in
listing order; the objects with unparseable bodies are skipped, so the result
length is the number of parseable objects under the prefix. -/
theorem C5_scan_correct (st : S3State) (tables : List String) (pre : String) :
    ((honestDB tables).getS3Data st pre).1
      = Except.ok ((keysUnder st.store pre).filterMap
          (fun k => (lookupKey st.store k).bind Json.parse))
    ∧ ((keysUnder st.store pre).filterMap
          (fun k => (lookupKey st.store k).bind Json.parse)).length
      = ((keysUnder st.store pre).filter
          (fun k => ((lookupKey st.store k).bind Json.parse).isSome)).length := by
  constructor
  · simp only [S3Database.getS3Data, honestDB, honest]
    have hmap := scanPages_map (honestDB tables) (chunks 999 (keysUnder st.store pre)) []
      { st with ops := st.ops ++ [.listOp s3BucketDB pre] }
    simp only [List.map_nil] at hmap
    have hk := scanPagesWithKey_honest tables (chunks 999 (keysUnder st.store pre)) []
      { st with ops := st.ops ++ [.listOp s3BucketDB pre] }
    simp only [honestDB, honest] at hmap hk
    rw [hmap, hk.1]
    simp [chunks_flatten, List.map_filterMap, Option.map_map, Function.comp]
  · exact length_filterMap_eq_length_filter _ _

end S3DB
